import Mathlib

/-!
# StockFlow — verification of the offline service and the scheduled-report service

Shallow embedding of `src/utils/inventoryViewService.ts` (class `OfflineService`)
and `src/utils/scheduledReportService.ts` (class `ScheduledReportService`).

`localStorage` values are modelled per key as blobs: a key is absent, holds a
string that fails `JSON.parse`, or holds the JSON serialisation of a value (a
round trip through `JSON.stringify`/`JSON.parse` of well-formed data is the
identity, so a parsable blob is modelled by the parsed value itself).
Nondeterministic inputs of the real program — `navigator.onLine`, `Date.now()`,
the generated transaction id, and the outcome of each `fetch` call — are passed
as explicit arguments.  Timestamps are integer milliseconds.
-/

namespace StockFlow

/-! ## OfflineService: pending-transactions queue -/

/-- A queued offline transaction (interface `PendingTransaction`): the payload
fields are opaque to the queue logic and are modelled by a single `payload`
component; `id`, `createdAt` and `attempts` are the fields the queue logic
reads. -/
structure PendingTransaction where
  id : String
  payload : Nat
  createdAt : Nat
  attempts : Nat
deriving Repr, DecidableEq

/-- The `stockflow_pending_transactions` localStorage slot. -/
inductive PendingBlob where
  | absent
  | corrupt
  | valid (txs : List PendingTransaction)
deriving Repr, DecidableEq

/-- Models `OfflineService.getPendingTransactions`: parse the stored blob; an absent
key yields `[]`, a parse error is caught and yields `[]` (nothing is written
back in either case). -/
def getPendingTransactions : PendingBlob → List PendingTransaction
  | .valid txs => txs
  | _ => []

/-- Models `OfflineService.getPendingTransactionCount`. -/
def getPendingTransactionCount (b : PendingBlob) : Nat :=
  (getPendingTransactions b).length

/-- Models `OfflineService.addPendingTransaction`: read the current list, append the
new entry with `attempts = 0` and the freshly generated id and `createdAt =
Date.now()`, and store the result.  Returns the new id. -/
def addPendingTransaction (b : PendingBlob) (payload : Nat) (freshId : String)
    (now : Nat) : String × PendingBlob :=
  let pending := getPendingTransactions b
  let pt : PendingTransaction :=
    { id := freshId, payload := payload, createdAt := now, attempts := 0 }
  (freshId, .valid (pending ++ [pt]))

/-- Models `OfflineService.removePendingTransaction`: filter out every entry whose id
matches and store the filtered list. -/
def removePendingTransaction (b : PendingBlob) (tid : String) : PendingBlob :=
  .valid ((getPendingTransactions b).filter (fun t => t.id ≠ tid))

/-- Models `pending.find(t => t.id === tid)` followed by `transaction.attempts++`:
increment the attempts of the first entry with the given id. -/
def bumpFirstAttempt : List PendingTransaction → String → List PendingTransaction
  | [], _ => []
  | t :: ts, tid =>
    if t.id = tid then { t with attempts := t.attempts + 1 } :: ts
    else t :: bumpFirstAttempt ts tid

/-- Models `OfflineService.incrementTransactionAttempts`: re-read the stored list;
if an entry with the id exists, increment its attempts and write the list
back, otherwise write nothing (the blob is left as it was). -/
def incrementTransactionAttempts (b : PendingBlob) (tid : String) : PendingBlob :=
  let pending := getPendingTransactions b
  if pending.any (fun t => t.id = tid) then .valid (bumpFirstAttempt pending tid)
  else b

/-- Outcome of one `fetch` to the `create-manual-transaction` edge function. -/
inductive FetchResult where
  | ok
  | httpError (status : Nat)
  | netError
deriving Repr, DecidableEq

/-- Result of one full sync pass: the `{synced, failed}` counters returned by
`syncPendingTransactions`, instrumented with the ids passed to
`removePendingTransaction` in call order. -/
structure SyncPassResult where
  synced : Nat
  failed : Nat
  removedOrder : List String
deriving Repr, DecidableEq

/-- In-memory state of `OfflineService` relevant to the queue: the stored blob
and the `syncInProgress` flag. -/
structure OfflineState where
  pendingStore : PendingBlob
  syncInProgress : Bool
deriving Repr, DecidableEq

/-- The `for (const transaction of pending)` loop of `syncPendingTransactions`.
`env i` is the outcome of the fetch made on iteration `i`.  On success the
entry is removed and `synced++`.  On a non-ok response `incrementTransactionAttempts`
runs against storage (a fresh parse — the loop's snapshot object keeps its
pre-pass `attempts`), `failed++`, and then the snapshot's `transaction.attempts >= 5`
decides removal, compensating with `failed--`.  On a thrown fetch error only
`incrementTransactionAttempts` and `failed++` run. -/
def syncLoop (env : Nat → FetchResult) :
    List PendingTransaction → Nat → PendingBlob → Nat → Nat → List String →
    SyncPassResult × PendingBlob
  | [], _, store, synced, failed, removed => (⟨synced, failed, removed⟩, store)
  | t :: ts, i, store, synced, failed, removed =>
    match env i with
    | .ok =>
        syncLoop env ts (i + 1) (removePendingTransaction store t.id)
          (synced + 1) failed (removed ++ [t.id])
    | .httpError _ =>
        let store1 := incrementTransactionAttempts store t.id
        if t.attempts ≥ 5 then
          syncLoop env ts (i + 1) (removePendingTransaction store1 t.id)
            synced failed (removed ++ [t.id])
        else
          syncLoop env ts (i + 1) store1 synced (failed + 1) removed
    | .netError =>
        syncLoop env ts (i + 1) (incrementTransactionAttempts store t.id)
          synced (failed + 1) removed

/-- Models `OfflineService.syncPendingTransactions`: a no-op returning `{0,0}` while
`syncInProgress` is set; otherwise snapshot the queue, drain it with one fetch
per entry, and clear the flag. -/
def syncPendingTransactions (st : OfflineState) (env : Nat → FetchResult) :
    SyncPassResult × OfflineState :=
  if st.syncInProgress then (⟨0, 0, []⟩, st)
  else
    let pending := getPendingTransactions st.pendingStore
    if pending.isEmpty then (⟨0, 0, []⟩, { st with syncInProgress := false })
    else
      let r := syncLoop env pending 0 st.pendingStore 0 0 []
      (r.1, { pendingStore := r.2, syncInProgress := false })

/-- Result of `OfflineService.processTransaction`, instrumented with the
number of network calls the invocation made. -/
structure ProcessResult where
  success : Bool
  offline : Bool
  transactionId : Option String
  networkAttempts : Nat
deriving Repr, DecidableEq

/-- Models `OfflineService.processTransaction`: online with a 2xx response returns
`{success:true, offline:false}`; online with a non-ok response (the code
throws `HTTP <status>` into its own catch) or a thrown fetch error enqueues
and returns `{success:true, offline:true, transactionId}`; offline enqueues
directly without touching the network. -/
def processTransaction (st : OfflineState) (onLine : Bool)
    (fetchOutcome : FetchResult) (payload : Nat) (freshId : String) (now : Nat) :
    ProcessResult × OfflineState :=
  if onLine then
    match fetchOutcome with
    | .ok =>
        (⟨true, false, none, 1⟩, st)
    | _ =>
        let r := addPendingTransaction st.pendingStore payload freshId now
        (⟨true, true, some r.1, 1⟩, { st with pendingStore := r.2 })
  else
    let r := addPendingTransaction st.pendingStore payload freshId now
    (⟨true, true, some r.1, 0⟩, { st with pendingStore := r.2 })

/-- Fold of `addPendingTransaction` over a list of `(payload, id, now)`
inputs: the queue built by a sequence of enqueue calls. -/
def enqueueAll (b : PendingBlob) : List (Nat × String × Nat) → PendingBlob
  | [] => b
  | (p, i, n) :: rest => enqueueAll (addPendingTransaction b p i n).2 rest

/-! ## OfflineService: data cache -/

/-- Interface `CacheData`: the cached `productos` and `inventario` payloads are
opaque to the cache logic and are modelled as lists of opaque rows. -/
structure CacheData where
  productos : List Nat
  inventario : List Nat
  lastUpdated : Nat
  version : Nat
deriving Repr, DecidableEq

/-- The `stockflow_cache` localStorage slot. -/
inductive CacheBlob where
  | absent
  | corrupt
  | valid (d : CacheData)
deriving Repr, DecidableEq

/-- Constant `CACHE_EXPIRY = 30 * 60 * 1000` — 30 minutes in milliseconds. -/
def CACHE_EXPIRY : Nat := 30 * 60 * 1000

/-- Models `OfflineService.getCachedData`: absent key returns `null`; a parse error
is caught, `clearCache()` runs and `null` is returned; a parsed entry with
`now - lastUpdated > CACHE_EXPIRY` is cleared and `null` is returned;
otherwise the entry is returned.  The second component is the cache slot
after the call (the read clears on expiry or corruption). -/
def getCachedData (b : CacheBlob) (now : Nat) : Option CacheData × CacheBlob :=
  match b with
  | .absent => (none, .absent)
  | .corrupt => (none, .absent)
  | .valid d =>
      if now - d.lastUpdated > CACHE_EXPIRY then (none, .absent)
      else (some d, .valid d)

/-- Models `OfflineService.hasCachedData`: `getCachedData() !== null` (with its
clearing side effect). -/
def hasCachedData (b : CacheBlob) (now : Nat) : Bool × CacheBlob :=
  let r := getCachedData b now
  (r.1.isSome, r.2)

/-- The two failures `getData` can throw. -/
inductive GetDataError where
  /-- Error `'No hay datos en caché y la aplicación está offline'` -/
  | noCachedDataOffline
  /-- the error thrown by `loadAndCacheData` propagated to the caller -/
  | loadError
deriving Repr, DecidableEq

/-- Successful result of `OfflineService.getData`. -/
structure GetDataResult where
  productos : List Nat
  inventario : List Nat
  fromCache : Bool
deriving Repr, DecidableEq

/-- Models `OfflineService.getData`.  `loadOutcome` is the outcome a call to
`loadAndCacheData` would have: `some (productos, inventario)` when the
Supabase queries succeed, `none` when they throw.  Returns the result or
thrown error, the cache slot afterwards, and the number of `loadAndCacheData`
calls made (instrumentation for the no-network-when-offline property).
A successful load caches its data with `lastUpdated = Date.now()`. -/
def getData (b : CacheBlob) (onLine : Bool) (forceRefresh : Bool) (now : Nat)
    (loadOutcome : Option (List Nat × List Nat)) :
    Except GetDataError GetDataResult × CacheBlob × Nat :=
  if !onLine then
    match getCachedData b now with
    | (some c, b1) => (.ok ⟨c.productos, c.inventario, true⟩, b1, 0)
    | (none, b1) => (.error .noCachedDataOffline, b1, 0)
  else
    let h := hasCachedData b now
    if forceRefresh || !h.1 then
      match loadOutcome with
      | some (p, inv) => (.ok ⟨p, inv, false⟩, .valid ⟨p, inv, now, 1⟩, 1)
      | none =>
          match getCachedData h.2 now with
          | (some c, b2) => (.ok ⟨c.productos, c.inventario, true⟩, b2, 1)
          | (none, b2) => (.error .loadError, b2, 1)
    else
      match getCachedData h.2 now with
      | (some c, b2) => (.ok ⟨c.productos, c.inventario, true⟩, b2, 0)
      | (none, b2) =>
          match loadOutcome with
          | some (p, inv) => (.ok ⟨p, inv, false⟩, .valid ⟨p, inv, now, 1⟩, 1)
          | none => (.error .loadError, b2, 1)

/-! ## ScheduledReportService: calendar model

JavaScript `new Date(year, month, day, hour, minute)` normalises an
out-of-range month into later years and an out-of-range day across month
boundaries (day `d` means "day 1 of the month plus `d - 1` days").  The model
maps such a civil datetime to an integer timestamp in milliseconds measured
from 00:00 of 1 January of year 0 (proleptic Gregorian), which the claims'
comparisons and offsets are invariant under. -/

/-- Gregorian leap year. -/
def isLeapYear (y : Nat) : Bool :=
  y % 4 = 0 && (y % 100 ≠ 0 || y % 400 = 0)

/-- Length of 0-based month `m` (0 = January … 11 = December) of year `y`. -/
def monthLength (y m : Nat) : Nat :=
  if m = 1 then (if isLeapYear y then 29 else 28)
  else if m = 3 ∨ m = 5 ∨ m = 8 ∨ m = 10 then 30
  else 31

/-- Days in the years `0, …, y - 1`. -/
def daysBeforeYear (y : Nat) : Nat :=
  365 * y + (y + 3) / 4 - (y + 99) / 100 + (y + 399) / 400

/-- Days in the months `0, …, m - 1` of year `y`. -/
def daysBeforeMonth (y : Nat) : Nat → Nat
  | 0 => 0
  | m + 1 => daysBeforeMonth y m + monthLength y m

/-- Day number of `new Date(y, m, d)`: month overflow rolls into later years,
day overflow is day 1 of the month plus `d - 1` days. -/
def civilDayNumber (y m : Nat) (d : Int) : Int :=
  ((daysBeforeYear (y + m / 12) + daysBeforeMonth (y + m / 12) (m % 12) : Nat) : Int)
    + (d - 1)

/-- Millisecond timestamp of `new Date(y, m, d, hh, mm)` (seconds and
milliseconds zero, as `setHours(h, m, 0, 0)` and the constructor produce). -/
def mkDateMs (y m : Nat) (d : Int) (hh mm : Nat) : Int :=
  civilDayNumber y m d * 86400000 + ((hh * 60 + mm : Nat) : Int) * 60000

/-- Value of `Date.prototype.getDay` at the date with the given day number: weekday
index with Sunday = 0.  The anchor makes 1970-01-01 a Thursday (4), matching
JavaScript. -/
def jsGetDay (dayNum : Int) : Nat :=
  ((dayNum + 6) % 7).toNat

/-- Value of `new Date(y, m + 1, 0).getDate()` — the number of days in month `m` of
year `y`. -/
def daysInMonthJS (y m : Nat) : Nat :=
  monthLength (y + m / 12) (m % 12)

/-- The weekday names accepted by the `weekly` branch's `dayMap`. -/
inductive Weekday where
  | sunday | monday | tuesday | wednesday | thursday | friday | saturday
deriving Repr, DecidableEq

/-- Models `dayMap`: `{sunday: 0, monday: 1, …, saturday: 6}`. -/
def Weekday.toIndex : Weekday → Nat
  | .sunday => 0
  | .monday => 1
  | .tuesday => 2
  | .wednesday => 3
  | .thursday => 4
  | .friday => 5
  | .saturday => 6

/-- The `case 'weekly'` branch of
`ScheduledReportService.calculateNextReportTime`.  `now` is passed as its
civil components: date `(ny, nm, nd)`, time of day `(nhh, nmm)` plus `nsub`
milliseconds past the minute.  `target` is `dayMap[config.reporte_dia]` and
`(hh, mm)` is the parsed `config.reporte_hora`.  `today` is `now`'s date at
`(hh, mm)` via `setHours(hour, minute, 0, 0)`. -/
def calculateNextWeekly (ny nm : Nat) (nd : Int) (nhh nmm nsub : Nat)
    (target : Weekday) (hh mm : Nat) : Int :=
  let nowMs := mkDateMs ny nm nd nhh nmm + (nsub : Int)
  let todayMs := mkDateMs ny nm nd hh mm
  let targetDay : Int := (target.toIndex : Int)
  let currentDay : Int := (jsGetDay (civilDayNumber ny nm nd) : Int)
  let dut := targetDay - currentDay
  let dut := if dut < 0 ∨ (dut = 0 ∧ nowMs > todayMs) then dut + 7 else dut
  todayMs + dut * 86400000

/-- The `possibleDates` array of the `case 'biweekly'` branch:
`[day, day + 15, day + daysInCurrentMonth]`. -/
def biweeklyCandidates (ny nm : Nat) (d : Int) : List Int :=
  [d, d + 15, d + (daysInMonthJS ny nm : Int)]

/-- The `case 'biweekly'` branch of `calculateNextReportTime`: `d` is
`parseInt(config.reporte_dia)`, `(hh, mm)` the parsed hour, `nowMs` is
`now.getTime()` and `(ny, nm)` are `now.getFullYear()` / `now.getMonth()`.
`find` takes the first candidate whose date at `(hh, mm)` lies strictly after
`now`; with no such candidate the result is day `d` of the next month. -/
def calculateNextBiweekly (ny nm : Nat) (nowMs : Int) (d : Int) (hh mm : Nat) :
    Int :=
  match (biweeklyCandidates ny nm d).find?
      (fun c => decide (mkDateMs ny nm c hh mm > nowMs)) with
  | some c => mkDateMs ny nm c hh mm
  | none => mkDateMs ny (nm + 1) d hh mm

/-! ## ScheduledReportService: timer discipline

The browser's timer table is modelled as the list of armed timeout handles,
`setTimeout` as arming a fresh handle and `clearTimeout h` as removing `h`
from the table (a no-op when `h` has already fired — JavaScript semantics).
The service's `this.timeoutId` field and the relevant flags are carried
alongside.  Each entry point of the class becomes one step of a state
machine; the branch decisions that depend on the database configuration and
on the computed fire time (whether a `scheduleTimeout` call is reached, which
always arms exactly one timer) are inputs of the step. -/

structure SchedulerState where
  /-- handles of currently armed (not yet fired, not cleared) timeouts -/
  armedTimers : List Nat
  /-- source of fresh timeout handles -/
  nextHandle : Nat
  /-- the service's `this.timeoutId` field -/
  timeoutId : Option Nat
  /-- the service's `this.isActive` field -/
  isActive : Bool
deriving Repr, DecidableEq

/-- Models `if (this.timeoutId) { clearTimeout(this.timeoutId); this.timeoutId = null }`. -/
def clearCurrentTimeout (s : SchedulerState) : SchedulerState :=
  match s.timeoutId with
  | some h => { s with armedTimers := s.armedTimers.erase h, timeoutId := none }
  | none => s

/-- Models `this.timeoutId = setTimeout(...)`: arm one fresh handle and record it. -/
def armTimeout (s : SchedulerState) : SchedulerState :=
  { s with
    armedTimers := s.nextHandle :: s.armedTimers
    timeoutId := some s.nextHandle
    nextHandle := s.nextHandle + 1 }

/-- Models `ScheduledReportService.scheduleNextReport`: clear any pending timeout,
then — unless the computed time is `null` or lies in the past with no
recovery — reach `scheduleTimeout`, which arms exactly one timer (the report
timer or the 24-hour re-check timer).  `arm` records which of those branches
the configuration and clock produce. -/
def scheduleNextReport (s : SchedulerState) (arm : Bool) : SchedulerState :=
  let s1 := clearCurrentTimeout s
  if arm then armTimeout s1 else s1

/-- Models `ScheduledReportService.initialize`: load the configuration, schedule when
the loaded config is enabled, set `isActive`. -/
def initializeService (s : SchedulerState) (enabled arm : Bool) : SchedulerState :=
  let s1 := if enabled then scheduleNextReport s arm else s
  { s1 with isActive := true }

/-- Models `ScheduledReportService.updateConfiguration`: store the new config, clear
the current timeout, and re-schedule only when the new config is enabled. -/
def updateConfiguration (s : SchedulerState) (enabled arm : Bool) : SchedulerState :=
  let s1 := clearCurrentTimeout s
  if enabled then scheduleNextReport s1 arm else s1

/-- Models `ScheduledReportService.stop`: clear the current timeout and deactivate. -/
def stopService (s : SchedulerState) : SchedulerState :=
  { clearCurrentTimeout s with isActive := false }

/-- An armed timer elapsing: the runtime disarms it, then its callback runs —
`executeScheduledReport` (no timer operations) followed by
`scheduleNextReport`, or, for the 24-hour re-check timer, `scheduleNextReport`
directly. -/
def fireTimer (s : SchedulerState) (arm : Bool) : SchedulerState :=
  match s.armedTimers with
  | [] => s
  | _ :: rest => scheduleNextReport { s with armedTimers := rest } arm

/-- The scheduler operations a client or the clock can perform. -/
inductive SchedulerOp where
  | init (enabled arm : Bool)
  | update (enabled arm : Bool)
  | fire (arm : Bool)
  | stop
deriving Repr, DecidableEq

def schedStep (s : SchedulerState) : SchedulerOp → SchedulerState
  | .init enabled arm => initializeService s enabled arm
  | .update enabled arm => updateConfiguration s enabled arm
  | .fire arm => fireTimer s arm
  | .stop => stopService s

def schedRun (s : SchedulerState) (ops : List SchedulerOp) : SchedulerState :=
  ops.foldl schedStep s

/-- The state before any operation: no timer armed, no handle recorded. -/
def initialSchedulerState : SchedulerState :=
  { armedTimers := [], nextHandle := 0, timeoutId := none, isActive := false }

/-! ## Theorems -/

instance : DecidableEq (Except GetDataError GetDataResult) := fun x y =>
  match x, y with
  | .ok a, .ok b =>
      if h : a = b then .isTrue (congrArg Except.ok h)
      else .isFalse (fun hxy => h (Except.ok.inj hxy))
  | .error a, .error b =>
      if h : a = b then .isTrue (congrArg Except.error h)
      else .isFalse (fun hxy => h (Except.error.inj hxy))
  | .ok _, .error _ => .isFalse (fun hxy => Except.noConfusion hxy)
  | .error _, .ok _ => .isFalse (fun hxy => Except.noConfusion hxy)

/-- C1 — counterexample.  A transaction that has accumulated 4 failed attempts
is, per the claim, removed on the sync pass in which its 5th attempt fails,
counted in neither `synced` nor `failed`.  The code instead leaves it queued
with `attempts = 5` and counts that pass's failure in `failed`: removal is
decided on the loop's snapshot value of `attempts`, not the incremented one. -/
theorem C1_counterexample :
    (syncPendingTransactions ⟨.valid [⟨"t", 0, 0, 4⟩], false⟩
        (fun _ => .httpError 500)).1.failed = 1
    ∧ getPendingTransactions
        (syncPendingTransactions ⟨.valid [⟨"t", 0, 0, 4⟩], false⟩
          (fun _ => .httpError 500)).2.pendingStore
        = [⟨"t", 0, 0, 5⟩] := by
  exact ⟨rfl, rfl⟩

/-- C1 — amended.  For a single queued transaction whose remote commit always
fails with a non-2xx HTTP response, each sync pass that starts with fewer than
5 accumulated attempts leaves it queued with one more attempt and reports
`{synced := 0, failed := 1}`; the pass that starts with 5 accumulated attempts
(its 6th failing attempt) removes it and reports `{synced := 0, failed := 0}`.
When the commit fails by throwing (network exception) the transaction is never
removed: every pass increments its attempts and reports `failed = 1`. -/
theorem C1_retry_ceiling_amended (idv : String) (p c a s : Nat) :
    (a < 5 →
      syncPendingTransactions ⟨.valid [⟨idv, p, c, a⟩], false⟩
          (fun _ => .httpError s)
        = (⟨0, 1, []⟩, ⟨.valid [⟨idv, p, c, a + 1⟩], false⟩))
    ∧ (5 ≤ a →
      syncPendingTransactions ⟨.valid [⟨idv, p, c, a⟩], false⟩
          (fun _ => .httpError s)
        = (⟨0, 0, [idv]⟩, ⟨.valid [], false⟩))
    ∧ syncPendingTransactions ⟨.valid [⟨idv, p, c, a⟩], false⟩
          (fun _ => .netError)
        = (⟨0, 1, []⟩, ⟨.valid [⟨idv, p, c, a + 1⟩], false⟩) := by
  refine ⟨fun h => ?_, fun h => ?_, ?_⟩
  · have h' : ¬ 5 ≤ a := by omega
    simp [syncPendingTransactions, syncLoop, incrementTransactionAttempts,
      getPendingTransactions, bumpFirstAttempt, removePendingTransaction,
      List.filter, h']
  · simp [syncPendingTransactions, syncLoop, incrementTransactionAttempts,
      getPendingTransactions, bumpFirstAttempt, removePendingTransaction,
      List.filter, h]
  · simp [syncPendingTransactions, syncLoop, incrementTransactionAttempts,
      getPendingTransactions, bumpFirstAttempt, removePendingTransaction,
      List.filter]

/-- C1 — witness for the amended theorem at concrete inputs. -/
theorem C1_retry_ceiling_amended_witness :
    (syncPendingTransactions ⟨.valid [⟨"t", 1, 2, 0⟩], false⟩
        (fun _ => .httpError 500)
      = (⟨0, 1, []⟩, ⟨.valid [⟨"t", 1, 2, 1⟩], false⟩))
    ∧ (syncPendingTransactions ⟨.valid [⟨"t", 1, 2, 5⟩], false⟩
        (fun _ => .httpError 500)
      = (⟨0, 0, ["t"]⟩, ⟨.valid [], false⟩)) :=
  ⟨(C1_retry_ceiling_amended "t" 1 2 0 500).1 (by decide),
   (C1_retry_ceiling_amended "t" 1 2 5 500).2.1 (by decide)⟩

/-- C2 — counterexample.  A cache entry exactly 30 minutes old
(`Δ = CACHE_EXPIRY`) is served with `fromCache = true`, although the claim
requires `fromCache = true` only for `Δ < 30` minutes and requires the
boundary entry to be treated as if no cache existed (which, with a succeeding
load, would return the fresh data with `fromCache = false`). -/
theorem C2_counterexample :
    ¬ (1800000 - (0 : Nat) < CACHE_EXPIRY)
    ∧ (getData (.valid ⟨[1], [2], 0, 1⟩) true false 1800000 (some ([3], [4]))).1
        = .ok ⟨[1], [2], true⟩
    ∧ getData (.valid ⟨[1], [2], 0, 1⟩) true false 1800000 (some ([3], [4]))
        ≠ getData .absent true false 1800000 (some ([3], [4])) := by
  exact ⟨by decide, rfl, by decide⟩

/-- C2 — amended.  For a stored entry with `last_updated = now - Δ` and
`forceRefresh = false`, `getData` returns that entry with `fromCache = true`
iff `Δ ≤ 30` minutes (the exact 30-minute boundary is still fresh, since the
code expires only when `now - lastUpdated > CACHE_EXPIRY`); when
`Δ > 30` minutes it behaves exactly as if no cache existed.  Both halves hold
online and offline and for every load outcome. -/
theorem C2_cache_freshness_amended (d : CacheData) (onLine : Bool) (now : Nat)
    (load : Option (List Nat × List Nat)) :
    (now - d.lastUpdated ≤ CACHE_EXPIRY →
      getData (.valid d) onLine false now load
        = (.ok ⟨d.productos, d.inventario, true⟩, .valid d, 0))
    ∧ (now - d.lastUpdated > CACHE_EXPIRY →
      getData (.valid d) onLine false now load
        = getData .absent onLine false now load) := by
  constructor
  · intro h
    have hfresh : ¬ (now - d.lastUpdated > CACHE_EXPIRY) := by omega
    cases onLine <;>
      simp [getData, getCachedData, hasCachedData, hfresh]
  · intro h
    cases onLine <;> cases load <;>
      simp [getData, getCachedData, hasCachedData, h]

/-- C2 — witness for the amended theorem at concrete inputs: an entry exactly
at the boundary is served from cache, and an entry one millisecond older is
handled identically to an absent cache. -/
theorem C2_cache_freshness_amended_witness :
    ((1800000 : Nat) - 0 ≤ CACHE_EXPIRY
      ∧ getData (.valid ⟨[1], [2], 0, 1⟩) true false 1800000 (some ([3], [4]))
          = (.ok ⟨[1], [2], true⟩, .valid ⟨[1], [2], 0, 1⟩, 0))
    ∧ ((1800001 : Nat) - 0 > CACHE_EXPIRY
      ∧ getData (.valid ⟨[1], [2], 0, 1⟩) true false 1800001 (some ([3], [4]))
          = getData .absent true false 1800001 (some ([3], [4]))) :=
  ⟨⟨by decide,
    (C2_cache_freshness_amended ⟨[1], [2], 0, 1⟩ true 1800000 (some ([3], [4]))).1
      (by decide)⟩,
   ⟨by decide,
    (C2_cache_freshness_amended ⟨[1], [2], 0, 1⟩ true 1800001 (some ([3], [4]))).2
      (by decide)⟩⟩

/-- C3 — confirmed.  `processTransaction` never fails from the caller's point
of view: online with an ok response it returns `{success := true, offline :=
false}` and leaves the queue untouched; online with a non-ok response or a
thrown fetch it appends the transaction with `attempts = 0` and returns
`{success := true, offline := true}` with the new queue id; offline it makes
no network call (`networkAttempts = 0`) and enqueues the same way. -/
theorem C3_process_transaction_never_fails (st : OfflineState) (s p now : Nat)
    (idv : String) (anyOutcome : FetchResult) :
    processTransaction st true .ok p idv now = (⟨true, false, none, 1⟩, st)
    ∧ processTransaction st true (.httpError s) p idv now
        = (⟨true, true, some idv, 1⟩,
           ⟨.valid (getPendingTransactions st.pendingStore ++ [⟨idv, p, now, 0⟩]),
            st.syncInProgress⟩)
    ∧ processTransaction st true .netError p idv now
        = (⟨true, true, some idv, 1⟩,
           ⟨.valid (getPendingTransactions st.pendingStore ++ [⟨idv, p, now, 0⟩]),
            st.syncInProgress⟩)
    ∧ processTransaction st false anyOutcome p idv now
        = (⟨true, true, some idv, 0⟩,
           ⟨.valid (getPendingTransactions st.pendingStore ++ [⟨idv, p, now, 0⟩]),
            st.syncInProgress⟩) := by
  refine ⟨rfl, rfl, rfl, ?_⟩
  cases anyOutcome <;> rfl

/-- Enqueueing onto a stored queue appends, in order, one entry with
`attempts = 0` per enqueue call. -/
theorem enqueueAll_valid (l : List PendingTransaction)
    (inputs : List (Nat × String × Nat)) :
    enqueueAll (.valid l) inputs
      = .valid (l ++ inputs.map (fun x => ⟨x.2.1, x.1, x.2.2, 0⟩)) := by
  induction inputs generalizing l with
  | nil => simp [enqueueAll]
  | cons x rest ih =>
      obtain ⟨p, i, n⟩ := x
      simp [enqueueAll, addPendingTransaction, getPendingTransactions, ih]

/-- Draining a queue whose ids are pairwise distinct with all-success
responses removes the entries front to back and syncs them all. -/
theorem syncLoop_allOk (txs : List PendingTransaction) :
    ∀ (i s f : Nat) (rm : List String),
    (txs.map (fun t => t.id)).Nodup →
    syncLoop (fun _ => .ok) txs i (.valid txs) s f rm
      = (⟨s + txs.length, f, rm ++ txs.map (fun t => t.id)⟩, .valid []) := by
  induction txs with
  | nil => intro i s f rm _; simp [syncLoop]
  | cons t ts ih =>
      intro i s f rm hnd
      rw [List.map_cons] at hnd
      obtain ⟨hnotin, hnd'⟩ := List.nodup_cons.mp hnd
      have hall : ∀ x ∈ ts, x.id ≠ t.id := fun x hx h =>
        hnotin (h ▸ List.mem_map_of_mem (fun t => t.id) hx)
      have hrm : removePendingTransaction (.valid (t :: ts)) t.id = .valid ts := by
        simp only [removePendingTransaction, getPendingTransactions]
        congr 1
        rw [List.filter_cons, if_neg (by simp)]
        exact List.filter_eq_self.mpr fun x hx => by simp [hall x hx]
      calc syncLoop (fun _ => .ok) (t :: ts) i (.valid (t :: ts)) s f rm
          = syncLoop (fun _ => .ok) ts (i + 1) (.valid ts) (s + 1) f (rm ++ [t.id]) := by
            rw [show syncLoop (fun _ => .ok) (t :: ts) i (.valid (t :: ts)) s f rm
                = syncLoop (fun _ => .ok) ts (i + 1)
                    (removePendingTransaction (.valid (t :: ts)) t.id)
                    (s + 1) f (rm ++ [t.id]) from rfl, hrm]
        _ = (⟨s + 1 + ts.length, f, (rm ++ [t.id]) ++ ts.map (fun t => t.id)⟩,
              .valid []) := ih (i + 1) (s + 1) f (rm ++ [t.id]) hnd'
        _ = (⟨s + (t :: ts).length, f, rm ++ (t :: ts).map (fun t => t.id)⟩,
              .valid []) := by
            have e1 : s + 1 + ts.length = s + (t :: ts).length := by
              simp only [List.length_cons]
              omega
            have e2 : (rm ++ [t.id]) ++ ts.map (fun t => t.id)
                = rm ++ (t :: ts).map (fun t => t.id) := by
              simp
            rw [e1, e2]

/-- A sync pass over a stored queue with pairwise distinct ids and all-success
responses drains it completely, in order. -/
theorem syncPending_allOk (txs : List PendingTransaction)
    (hnd : (txs.map (fun t => t.id)).Nodup) :
    syncPendingTransactions ⟨.valid txs, false⟩ (fun _ => .ok)
      = (⟨txs.length, 0, txs.map (fun t => t.id)⟩, ⟨.valid [], false⟩) := by
  cases txs with
  | nil => simp [syncPendingTransactions, getPendingTransactions]
  | cons t ts =>
      have hloop := syncLoop_allOk (t :: ts) 0 0 0 [] hnd
      simp only [syncPendingTransactions, getPendingTransactions,
        Bool.false_eq_true, if_false, List.isEmpty_cons, hloop]
      simp

/-- C4 — confirmed.  For any sequence of enqueue calls producing pairwise
distinct ids `i1 … in` (in that order) starting from an empty queue, a sync
pass in which every remote commit succeeds removes the entries in exactly the
order `i1 … in`, returns `{synced := n, failed := 0}`, and leaves the queue
empty. -/
theorem C4_queue_fifo_drain (inputs : List (Nat × String × Nat))
    (hnd : (inputs.map (fun x => x.2.1)).Nodup) :
    syncPendingTransactions ⟨enqueueAll (.valid []) inputs, false⟩ (fun _ => .ok)
      = (⟨inputs.length, 0, inputs.map (fun x => x.2.1)⟩, ⟨.valid [], false⟩) := by
  have hq : enqueueAll (.valid []) inputs
      = .valid (inputs.map (fun x => ⟨x.2.1, x.1, x.2.2, 0⟩)) := by
    rw [enqueueAll_valid, List.nil_append]
  have hids : (inputs.map
        (fun x => (⟨x.2.1, x.1, x.2.2, 0⟩ : PendingTransaction))).map
          (fun t => t.id)
      = inputs.map (fun x => x.2.1) := by
    rw [List.map_map]; rfl
  rw [hq, syncPending_allOk _ (by rw [hids]; exact hnd), hids, List.length_map]

/-- C4 — witness at a concrete three-element enqueue sequence. -/
theorem C4_queue_fifo_drain_witness :
    syncPendingTransactions
        ⟨enqueueAll (.valid []) [(1, "a", 10), (2, "b", 11), (3, "c", 12)], false⟩
        (fun _ => .ok)
      = (⟨3, 0, ["a", "b", "c"]⟩, ⟨.valid [], false⟩) :=
  C4_queue_fifo_drain [(1, "a", 10), (2, "b", 11), (3, "c", 12)] (by decide)

/-- C5 — confirmed.  While a sync is in flight (`syncInProgress = true`),
any call to `syncPendingTransactions` returns `{synced := 0, failed := 0}`
with no `removePendingTransaction` call and leaves the whole state — queue
included — unchanged, so an overlapping second call performs no dequeues. -/
theorem C5_single_inflight_sync (st : OfflineState) (env : Nat → FetchResult)
    (h : st.syncInProgress = true) :
    syncPendingTransactions st env = (⟨0, 0, []⟩, st) := by
  simp [syncPendingTransactions, h]

/-- C5 — witness at a concrete in-flight state with a non-empty queue. -/
theorem C5_single_inflight_sync_witness :
    syncPendingTransactions ⟨.valid [⟨"t", 1, 2, 0⟩], true⟩ (fun _ => .ok)
      = (⟨0, 0, []⟩, ⟨.valid [⟨"t", 1, 2, 0⟩], true⟩) :=
  C5_single_inflight_sync _ _ rfl

/-- C6 — confirmed.  Offline, `getData` makes no network call
(`loadAndCacheData` count is 0) and returns exactly what `getCachedData`
yields: the cached entry with `fromCache = true` when one is present (and
fresh), and the no-cached-data-offline error otherwise. -/
theorem C6_offline_read_path (b : CacheBlob) (now : Nat) (fr : Bool)
    (load : Option (List Nat × List Nat)) :
    getData b false fr now load =
      ((match (getCachedData b now).1 with
        | some c => Except.ok ⟨c.productos, c.inventario, true⟩
        | none => Except.error GetDataError.noCachedDataOffline),
       (getCachedData b now).2, 0) := by
  rcases hb : getCachedData b now with ⟨r, b1⟩
  cases r <;> simp [getData, hb]

/-- Weekday indices are in `0 … 6`. -/
theorem jsGetDay_lt (n : Int) : jsGetDay n < 7 := by
  unfold jsGetDay
  omega

/-- Advancing a date by `k` days advances its weekday by `k` modulo 7. -/
theorem jsGetDay_add (n : Int) (k : Nat) :
    jsGetDay (n + (k : Int)) = (jsGetDay n + k) % 7 := by
  unfold jsGetDay
  omega

/-- Every month has at least 28 days. -/
theorem monthLength_ge (y m : Nat) : 28 ≤ monthLength y m := by
  unfold monthLength
  split_ifs <;> omega

/-- Timestamps are strictly monotone in the (possibly overflowing) day
argument. -/
theorem mkDateMs_lt_of_day_lt (y m hh mm : Nat) {d1 d2 : Int} (h : d1 < d2) :
    mkDateMs y m d1 hh mm < mkDateMs y m d2 hh mm := by
  unfold mkDateMs civilDayNumber
  have h86 : (0 : Int) < 86400000 := by norm_num
  have := (mul_lt_mul_right h86).mpr
    (show (((daysBeforeYear (y + m / 12) + daysBeforeMonth (y + m / 12) (m % 12) : Nat) : Int)
        + (d1 - 1))
      < (((daysBeforeYear (y + m / 12) + daysBeforeMonth (y + m / 12) (m % 12) : Nat) : Int)
        + (d2 - 1)) from by omega)
  omega

/-- Timestamps are monotone in the day argument. -/
theorem mkDateMs_le_of_day_le (y m hh mm : Nat) {d1 d2 : Int} (h : d1 ≤ d2) :
    mkDateMs y m d1 hh mm ≤ mkDateMs y m d2 hh mm := by
  rcases lt_or_eq_of_le h with h' | h'
  · exact le_of_lt (mkDateMs_lt_of_day_lt y m hh mm h')
  · rw [h']

/-- Inductive timer invariant: either no timer is armed, or exactly one is
armed and `this.timeoutId` records its handle (so the clearing code can
disarm it). -/
def TimerInv (s : SchedulerState) : Prop :=
  s.armedTimers = [] ∨ ∃ h, s.armedTimers = [h] ∧ s.timeoutId = some h

/-- Clearing under the invariant leaves no timer armed. -/
theorem clearCurrentTimeout_armed (s : SchedulerState) (hI : TimerInv s) :
    (clearCurrentTimeout s).armedTimers = [] := by
  rcases hI with h | ⟨h, ha, ht⟩
  · unfold clearCurrentTimeout
    cases e : s.timeoutId <;> simp [e, h]
  · simp [clearCurrentTimeout, ht, ha]

/-- Clearing preserves the invariant. -/
theorem timerInv_clear (s : SchedulerState) (hI : TimerInv s) :
    TimerInv (clearCurrentTimeout s) :=
  Or.inl (clearCurrentTimeout_armed s hI)

/-- Scheduling under the invariant arms at most one timer, recorded in
`timeoutId`. -/
theorem timerInv_scheduleNextReport (s : SchedulerState) (hI : TimerInv s)
    (arm : Bool) : TimerInv (scheduleNextReport s arm) := by
  unfold scheduleNextReport
  cases arm with
  | false => simpa using timerInv_clear s hI
  | true =>
      right
      refine ⟨(clearCurrentTimeout s).nextHandle, ?_, ?_⟩ <;>
        simp [armTimeout, clearCurrentTimeout_armed s hI]

/-- Every scheduler operation preserves the timer invariant. -/
theorem timerInv_step (s : SchedulerState) (op : SchedulerOp) (hI : TimerInv s) :
    TimerInv (schedStep s op) := by
  have hfields : ∀ (s' : SchedulerState) (b : Bool),
      TimerInv s' → TimerInv { s' with isActive := b } := by
    rintro s' b (h | ⟨h, ha, ht⟩)
    · exact Or.inl h
    · exact Or.inr ⟨h, ha, ht⟩
  cases op with
  | init enabled arm =>
      cases enabled with
      | false => exact hfields _ _ hI
      | true => exact hfields _ _ (timerInv_scheduleNextReport s hI arm)
  | update enabled arm =>
      cases enabled with
      | false => simpa [schedStep, updateConfiguration] using timerInv_clear s hI
      | true =>
          simpa [schedStep, updateConfiguration] using
            timerInv_scheduleNextReport (clearCurrentTimeout s)
              (timerInv_clear s hI) arm
  | fire arm =>
      rcases hI with h | ⟨h, ha, ht⟩
      · simp [schedStep, fireTimer, h]
        exact Or.inl h
      · simp only [schedStep, fireTimer, ha]
        exact timerInv_scheduleNextReport _ (Or.inl rfl) arm
  | stop => exact hfields _ _ (timerInv_clear s hI)

/-- The invariant holds after any run from an invariant state. -/
theorem timerInv_run (ops : List SchedulerOp) :
    ∀ s : SchedulerState, TimerInv s → TimerInv (schedRun s ops) := by
  induction ops with
  | nil => intro s hI; exact hI
  | cons op rest ih =>
      intro s hI
      exact ih (schedStep s op) (timerInv_step s op hI)

/-- C9 — confirmed.  Starting from the pristine scheduler, any sequence of
`initialize` / `updateConfiguration` / timer-fire / `stop` operations leaves
at most one timer armed at any point (each arming operation first disarms the
recorded handle), and a trailing `stop` or a disabling `updateConfiguration`
leaves no timer armed at all. -/
theorem C9_single_outstanding_timer (ops : List SchedulerOp) (arm : Bool) :
    (schedRun initialSchedulerState ops).armedTimers.length ≤ 1
    ∧ (schedRun initialSchedulerState (ops ++ [.stop])).armedTimers = []
    ∧ (schedRun initialSchedulerState
        (ops ++ [.update false arm])).armedTimers = [] := by
  have h0 : TimerInv initialSchedulerState := Or.inl rfl
  have hI := timerInv_run ops initialSchedulerState h0
  refine ⟨?_, ?_, ?_⟩
  · rcases hI with h | ⟨h, ha, _⟩
    · simp [h]
    · simp [ha]
  · rw [show schedRun initialSchedulerState (ops ++ [.stop])
        = schedStep (schedRun initialSchedulerState ops) .stop from
      by simp [schedRun, List.foldl_append]]
    exact clearCurrentTimeout_armed _ hI
  · rw [show schedRun initialSchedulerState (ops ++ [.update false arm])
        = schedStep (schedRun initialSchedulerState ops) (.update false arm) from
      by simp [schedRun, List.foldl_append]]
    simpa [schedStep, updateConfiguration] using
      clearCurrentTimeout_armed _ hI

/-- C7 — confirmed.  For the biweekly frequency the computed next fire time
is characterised by the candidate days `{d, d+15, d+(days in current month)}`
at the configured hour: whenever some candidate's timestamp is strictly after
`now`, the result is itself a candidate timestamp strictly after `now` and is
at most every qualifying candidate's timestamp (the smallest qualifying
candidate, as the candidates are in ascending order); when no candidate
qualifies the result is day `d` of the next calendar month at the configured
hour. -/
theorem C7_biweekly_next_fire (ny nm : Nat) (nowMs : Int) (d : Int)
    (hh mm : Nat) :
    (∀ c ∈ biweeklyCandidates ny nm d, mkDateMs ny nm c hh mm > nowMs →
        calculateNextBiweekly ny nm nowMs d hh mm > nowMs
        ∧ calculateNextBiweekly ny nm nowMs d hh mm ≤ mkDateMs ny nm c hh mm
        ∧ ∃ c' ∈ biweeklyCandidates ny nm d,
            calculateNextBiweekly ny nm nowMs d hh mm = mkDateMs ny nm c' hh mm)
    ∧ ((∀ c ∈ biweeklyCandidates ny nm d, ¬ (mkDateMs ny nm c hh mm > nowMs)) →
        calculateNextBiweekly ny nm nowMs d hh mm
          = mkDateMs ny (nm + 1) d hh mm) := by
  have h28 : 28 ≤ daysInMonthJS ny nm := monthLength_ge _ _
  have hord1 : d ≤ d + 15 := by omega
  have hord2 : d + 15 ≤ d + (daysInMonthJS ny nm : Int) := by omega
  by_cases hA : mkDateMs ny nm d hh mm > nowMs
  · have hval : calculateNextBiweekly ny nm nowMs d hh mm
        = mkDateMs ny nm d hh mm := by
      unfold calculateNextBiweekly biweeklyCandidates
      rw [List.find?_cons_of_pos _ (by simpa using hA)]
    constructor
    · intro c hc _
      refine ⟨by rw [hval]; exact hA, ?_,
        ⟨d, by simp [biweeklyCandidates], hval⟩⟩
      rw [hval]
      simp only [biweeklyCandidates, List.mem_cons, List.mem_singleton,
        List.not_mem_nil, or_false] at hc
      rcases hc with rfl | rfl | rfl
      · exact le_refl _
      · exact mkDateMs_le_of_day_le _ _ _ _ hord1
      · exact mkDateMs_le_of_day_le _ _ _ _ (le_trans hord1 hord2)
    · intro hnone
      exact absurd hA (hnone d (by simp [biweeklyCandidates]))
  · by_cases hB : mkDateMs ny nm (d + 15) hh mm > nowMs
    · have hval : calculateNextBiweekly ny nm nowMs d hh mm
          = mkDateMs ny nm (d + 15) hh mm := by
        unfold calculateNextBiweekly biweeklyCandidates
        rw [List.find?_cons_of_neg _ (by simpa using hA),
          List.find?_cons_of_pos _ (by simpa using hB)]
      constructor
      · intro c hc hq
        refine ⟨by rw [hval]; exact hB, ?_,
          ⟨d + 15, by simp [biweeklyCandidates], hval⟩⟩
        rw [hval]
        simp only [biweeklyCandidates, List.mem_cons, List.mem_singleton,
          List.not_mem_nil, or_false] at hc
        rcases hc with rfl | rfl | rfl
        · exact absurd hq hA
        · exact le_refl _
        · exact mkDateMs_le_of_day_le _ _ _ _ hord2
      · intro hnone
        exact absurd hB (hnone (d + 15) (by simp [biweeklyCandidates]))
    · by_cases hE : mkDateMs ny nm (d + (daysInMonthJS ny nm : Int)) hh mm > nowMs
      · have hval : calculateNextBiweekly ny nm nowMs d hh mm
            = mkDateMs ny nm (d + (daysInMonthJS ny nm : Int)) hh mm := by
          unfold calculateNextBiweekly biweeklyCandidates
          rw [List.find?_cons_of_neg _ (by simpa using hA),
            List.find?_cons_of_neg _ (by simpa using hB),
            List.find?_cons_of_pos _ (by simpa using hE)]
        constructor
        · intro c hc hq
          refine ⟨by rw [hval]; exact hE, ?_,
            ⟨d + (daysInMonthJS ny nm : Int), by simp [biweeklyCandidates], hval⟩⟩
          rw [hval]
          simp only [biweeklyCandidates, List.mem_cons, List.mem_singleton,
            List.not_mem_nil, or_false] at hc
          rcases hc with rfl | rfl | rfl
          · exact absurd hq hA
          · exact absurd hq hB
          · exact le_refl _
        · intro hnone
          exact absurd hE
            (hnone (d + (daysInMonthJS ny nm : Int)) (by simp [biweeklyCandidates]))
      · have hval : calculateNextBiweekly ny nm nowMs d hh mm
            = mkDateMs ny (nm + 1) d hh mm := by
          unfold calculateNextBiweekly biweeklyCandidates
          rw [List.find?_cons_of_neg _ (by simpa using hA),
            List.find?_cons_of_neg _ (by simpa using hB),
            List.find?_cons_of_neg _ (by simpa using hE)]
          rfl
        constructor
        · intro c hc hq
          simp only [biweeklyCandidates, List.mem_cons, List.mem_singleton,
            List.not_mem_nil, or_false] at hc
          rcases hc with rfl | rfl | rfl
          · exact absurd hq hA
          · exact absurd hq hB
          · exact absurd hq hE
        · intro _
          exact hval

/-- C7 — witness.  Concrete month: January 2000 (31 days), `d = 3`,
hour 09:00.  With `now` = 5 Jan 2000 12:00 the qualifying candidates are
days 18 and 34, and the result is day 18 at 09:00; with `now` past all
candidates the result is 3 Feb 2000 09:00. -/
theorem C7_biweekly_next_fire_witness :
    ((3 : Int) + 15 ∈ biweeklyCandidates 2000 0 3
      ∧ mkDateMs 2000 0 (3 + 15) 9 0 > mkDateMs 2000 0 5 12 0
      ∧ calculateNextBiweekly 2000 0 (mkDateMs 2000 0 5 12 0) 3 9 0 > mkDateMs 2000 0 5 12 0
      ∧ calculateNextBiweekly 2000 0 (mkDateMs 2000 0 5 12 0) 3 9 0
          ≤ mkDateMs 2000 0 (3 + 15) 9 0)
    ∧ calculateNextBiweekly 2000 0 (mkDateMs 2001 0 1 0 0) 3 9 0
        = mkDateMs 2000 1 3 9 0 := by
  have h1 := (C7_biweekly_next_fire 2000 0 (mkDateMs 2000 0 5 12 0) 3 9 0).1
    (3 + 15) (by decide) (by decide)
  have h2 := (C7_biweekly_next_fire 2000 0 (mkDateMs 2001 0 1 0 0) 3 9 0).2
    (by decide)
  exact ⟨⟨by decide, by decide, h1.1, h1.2.1⟩, h2⟩

/-- C8 — confirmed.  For the weekly frequency the result is today's date at
the configured hour plus a whole-day offset `o`: when the target weekday
equals today's weekday and `now` is already past today's configured hour, the
offset is 7 days; otherwise `o` is the smallest non-negative offset landing
on the target weekday (in particular `o < 7` and no smaller offset hits the
target weekday). -/
theorem C8_weekly_next_fire (ny nm : Nat) (nd : Int) (nhh nmm nsub : Nat)
    (target : Weekday) (hh mm : Nat) :
    ((target.toIndex = jsGetDay (civilDayNumber ny nm nd)
        ∧ mkDateMs ny nm nd nhh nmm + (nsub : Int) > mkDateMs ny nm nd hh mm) →
      calculateNextWeekly ny nm nd nhh nmm nsub target hh mm
        = mkDateMs ny nm nd hh mm + 7 * 86400000
      ∧ jsGetDay (civilDayNumber ny nm nd + (7 : Nat)) = target.toIndex)
    ∧ (¬ (target.toIndex = jsGetDay (civilDayNumber ny nm nd)
        ∧ mkDateMs ny nm nd nhh nmm + (nsub : Int) > mkDateMs ny nm nd hh mm) →
      ∃ o : Nat, o < 7
        ∧ calculateNextWeekly ny nm nd nhh nmm nsub target hh mm
            = mkDateMs ny nm nd hh mm + (o : Int) * 86400000
        ∧ jsGetDay (civilDayNumber ny nm nd + (o : Nat)) = target.toIndex
        ∧ ∀ k : Nat, k < o →
            jsGetDay (civilDayNumber ny nm nd + (k : Nat)) ≠ target.toIndex) := by
  have hc7 : jsGetDay (civilDayNumber ny nm nd) < 7 := jsGetDay_lt _
  have ht7 : target.toIndex < 7 := by cases target <;> simp [Weekday.toIndex]
  set c := jsGetDay (civilDayNumber ny nm nd) with hcdef
  set t := target.toIndex with htdef
  constructor
  · rintro ⟨h1, h2⟩
    constructor
    · simp only [calculateNextWeekly]
      rw [if_pos (Or.inr ⟨by rw [← hcdef, ← htdef, h1]; ring, h2⟩)]
      rw [← hcdef, ← htdef, h1]
      ring
    · rw [jsGetDay_add]
      omega
  · intro hnot
    rcases lt_trichotomy t c with hlt | heq | hgt
    · refine ⟨t + 7 - c, by omega, ?_, ?_, ?_⟩
      · simp only [calculateNextWeekly]
        rw [if_pos (Or.inl (by rw [← hcdef, ← htdef]; omega))]
        rw [← hcdef, ← htdef]
        have : ((t + 7 - c : Nat) : Int) = (t : Int) - (c : Int) + 7 := by omega
        rw [this]
      · rw [jsGetDay_add, ← hcdef]
        omega
      · intro k hk hcontra
        rw [jsGetDay_add, ← hcdef] at hcontra
        omega
    · refine ⟨0, by omega, ?_, ?_, ?_⟩
      · have hpast : ¬ (mkDateMs ny nm nd nhh nmm + (nsub : Int)
            > mkDateMs ny nm nd hh mm) := fun hp => hnot ⟨by omega, hp⟩
        simp only [calculateNextWeekly]
        rw [if_neg (by rw [← hcdef, ← htdef]; push_neg; exact ⟨by omega, fun _ => le_of_not_lt hpast⟩)]
        rw [← hcdef, ← htdef]
        have : (t : Int) - (c : Int) = ((0 : Nat) : Int) := by omega
        rw [this]
      · rw [jsGetDay_add, ← hcdef]
        omega
      · intro k hk
        omega
    · refine ⟨t - c, by omega, ?_, ?_, ?_⟩
      · simp only [calculateNextWeekly]
        rw [if_neg (by rw [← hcdef, ← htdef]; push_neg; exact ⟨by omega, fun h => absurd h (by omega)⟩)]
        rw [← hcdef, ← htdef]
        have : ((t - c : Nat) : Int) = (t : Int) - (c : Int) := by omega
        rw [this]
      · rw [jsGetDay_add, ← hcdef]
        omega
      · intro k hk hcontra
        rw [jsGetDay_add, ← hcdef] at hcontra
        omega

/-- C8 — witness at the spec's example: `now` = Wednesday 5 Jan 2000 12:00,
`day = 'monday'`, `hour = '09:00'`; the result is the coming Monday
10 Jan 2000 09:00, an offset of 5 days. -/
theorem C8_weekly_next_fire_witness :
    ¬ (Weekday.monday.toIndex = jsGetDay (civilDayNumber 2000 0 5)
        ∧ mkDateMs 2000 0 5 12 0 + ((0 : Nat) : Int) > mkDateMs 2000 0 5 9 0)
    ∧ ∃ o : Nat, o < 7
        ∧ calculateNextWeekly 2000 0 5 12 0 0 .monday 9 0
            = mkDateMs 2000 0 5 9 0 + (o : Int) * 86400000
        ∧ jsGetDay (civilDayNumber 2000 0 5 + (o : Nat)) = Weekday.monday.toIndex
        ∧ ∀ k : Nat, k < o →
            jsGetDay (civilDayNumber 2000 0 5 + (k : Nat)) ≠ Weekday.monday.toIndex :=
  ⟨by decide,
   (C8_weekly_next_fire 2000 0 5 12 0 0 .monday 9 0).2 (by decide)⟩

/-- C10 — confirmed.  An absent or unparsable pending-transactions blob reads
as the empty queue: the pending count is 0, a sync pass is a no-op returning
`{synced := 0, failed := 0}` that neither repairs the blob nor surfaces an
error, and the next enqueue overwrites the slot with a one-element list. -/
theorem C10_corrupt_queue_degrades_empty (env : Nat → FetchResult)
    (p now : Nat) (idv : String) :
    getPendingTransactions .corrupt = []
    ∧ getPendingTransactions .absent = []
    ∧ getPendingTransactionCount .corrupt = 0
    ∧ getPendingTransactionCount .absent = 0
    ∧ syncPendingTransactions ⟨.corrupt, false⟩ env = (⟨0, 0, []⟩, ⟨.corrupt, false⟩)
    ∧ syncPendingTransactions ⟨.absent, false⟩ env = (⟨0, 0, []⟩, ⟨.absent, false⟩)
    ∧ addPendingTransaction .corrupt p idv now = (idv, .valid [⟨idv, p, now, 0⟩])
    ∧ addPendingTransaction .absent p idv now = (idv, .valid [⟨idv, p, now, 0⟩]) := by
  exact ⟨rfl, rfl, rfl, rfl, rfl, rfl, rfl, rfl⟩

end StockFlow
